import Mathlib

/-!
Verification of the Image-COntroller filmstrip generator
(`src/filmstrip.py`, class `FilmstripGenerator`).

The Python code is shallowly embedded: pure helpers become Lean
functions; PIL images are modelled by their observable geometry
(pixel width/height and the visible-content bounding box returned by
`Image.getbbox()`); floating-point arithmetic on half-pixel centers is
modelled exactly over `ℚ`; Python's `float('inf')` accumulator
sentinel for the global bounding box is modelled by an `Option`
accumulator (`min(inf, x) = x` is exactly the `none` step).
-/

namespace Filmstrip

/-- A decodable image, reduced to the geometry the generator observes:
pixel dimensions (`img.width`, `img.height`) and the visible-content
bounding box `img.getbbox()` — `none` when the image is fully
transparent, otherwise `some (left, top, right, bottom)`. -/
structure Img where
  width : Nat
  height : Nat
  bbox : Option (Nat × Nat × Nat × Nat)
deriving DecidableEq, Repr

/-! ## Grid dimensioning (`calculate_optimal_dimensions`, `calculate_grid_size`) -/

/-- Fuel-bounded search for the least `k ≥ start` with `k*k ≥ n`;
when the fuel runs out it returns the candidate reached. -/
def ceilSqrtFrom (n : Nat) : Nat → Nat → Nat
  | k, 0 => k
  | k, fuel + 1 => if n ≤ k * k then k else ceilSqrtFrom n (k + 1) fuel

/-- Model of `math.ceil(math.sqrt(n))` on naturals: the least `k` with
`k*k ≥ n` (in particular `0` for `n = 0`, matching the defensive guards
in the source). Fuel `n` always suffices since `n*n ≥ n`;
`ceilSqrt_spec` proves the characterisation. -/
def ceilSqrt (n : Nat) : Nat :=
  ceilSqrtFrom n 0 n

/-- Embedding of `FilmstripGenerator.calculate_optimal_dimensions` (filmstrip.py:38-62):
`cols = ceil(sqrt(n))`, `rows = ceil(n / cols)`; `(0, 0)` for `n ≤ 0`. -/
def calculate_optimal_dimensions (num_images : Nat) : Nat × Nat :=
  if num_images = 0 then (0, 0)
  else
    let cols := ceilSqrt num_images
    let rows := (num_images + cols - 1) / cols
    (cols, rows)

/-- Embedding of `FilmstripGenerator.calculate_grid_size` (filmstrip.py:64-71):
minimum square grid side `ceil(sqrt(n))`; `0` for `n ≤ 0`. -/
def calculate_grid_size (num_images : Nat) : Nat :=
  if num_images = 0 then 0 else ceilSqrt num_images

/-- Grid-dimension resolution in `create_filmstrip` (filmstrip.py:141-151):
no override uses `calculate_optimal_dimensions`; an override `g` fails
(`ValueError`) when `g < calculate_grid_size n`, else forces a square
`g × g` grid. -/
def resolveGridDims (num_images : Nat) (grid_size : Option Nat) :
    Except String (Nat × Nat) :=
  match grid_size with
  | none => .ok (calculate_optimal_dimensions num_images)
  | some g =>
      if g < calculate_grid_size num_images then
        .error ("Grid size " ++ toString g ++ "x" ++ toString g ++
          " too small for " ++ toString num_images ++ " images")
      else
        .ok (g, g)

/-! ## Cell geometry (`get_max_dimensions` and the autocrop paths) -/

/-- Embedding of `FilmstripGenerator.get_max_dimensions` (filmstrip.py:73-95):
componentwise maximum of the source dimensions, starting from `(0, 0)`. -/
def get_max_dimensions (imgs : List Img) : Nat × Nat :=
  imgs.foldl (fun acc img => (max acc.1 img.width, max acc.2 img.height)) (0, 0)

/-- One step of the center-preserving radius accumulation
(filmstrip.py:179-196): an image with a bbox contributes the distances
from its own center `(width/2, height/2)` to the bbox edges. -/
def radiiStep (acc : ℚ × ℚ) (img : Img) : ℚ × ℚ :=
  match img.bbox with
  | none => acc
  | some (l, t, r, b) =>
      let cx : ℚ := (img.width : ℚ) / 2
      let cy : ℚ := (img.height : ℚ) / 2
      (max acc.1 (max |cx - (l : ℚ)| |(r : ℚ) - cx|),
       max acc.2 (max |cy - (t : ℚ)| |(b : ℚ) - cy|))

/-- Accumulated `(max_h_radius, max_v_radius)` over the image list,
starting from `(0, 0)` (filmstrip.py:176-196). -/
def centerRadii (imgs : List Img) : ℚ × ℚ :=
  imgs.foldl radiiStep (0, 0)

/-- Per-image horizontal radius: the larger of the distances from the
image's own center to its bbox's left and right edges (`0` without a bbox). -/
def hRad (img : Img) : ℚ :=
  match img.bbox with
  | none => 0
  | some (l, _, r, _) =>
      max |(img.width : ℚ) / 2 - (l : ℚ)| |(r : ℚ) - (img.width : ℚ) / 2|

/-- Per-image vertical radius: the larger of the distances from the
image's own center to its bbox's top and bottom edges (`0` without a bbox). -/
def vRad (img : Img) : ℚ :=
  match img.bbox with
  | none => 0
  | some (_, t, _, b) =>
      max |(img.height : ℚ) / 2 - (t : ℚ)| |(b : ℚ) - (img.height : ℚ) / 2|

/-- Flag `has_valid_content`: some image has a visible-content bbox. -/
def hasContent (imgs : List Img) : Bool :=
  imgs.any (fun img => img.bbox.isSome)

/-- One step of the global-bbox union accumulation (filmstrip.py:227-236).
The source starts `global_left`/`global_top` at `float('inf')` and
`global_right`/`global_bottom` at `0`; the state before the first bbox is
modelled as `none` (`min(inf, l) = l`, and `right`/`bottom` only grow). -/
def unionStep (acc : Option (Nat × Nat × Nat × Nat)) (img : Img) :
    Option (Nat × Nat × Nat × Nat) :=
  match img.bbox with
  | none => acc
  | some (l, t, r, b) =>
      match acc with
      | none => some (l, t, r, b)
      | some (L, T, R, B) => some (min L l, min T t, max R r, max B b)

/-- The union bounding box over all images (filmstrip.py:218-239);
`none` when no image has visible content. -/
def globalBBoxUnion (imgs : List Img) : Option (Nat × Nat × Nat × Nat) :=
  imgs.foldl unionStep none

/-- Crop-derived base cell size before padding/square (filmstrip.py:161-248):
center-preserving (`fixed_center`) uses `ceil(max_radius * 2)` per axis;
the classic path uses the union bbox extents. `none` models the
no-visible-content fallback (`crop_box = None`). -/
def cropCellSize (imgs : List Img) (fixed_center : Bool) :
    Option (Nat × Nat) :=
  if fixed_center then
    if hasContent imgs then
      some ((⌈(centerRadii imgs).1 * 2⌉).toNat, (⌈(centerRadii imgs).2 * 2⌉).toNat)
    else none
  else
    (globalBBoxUnion imgs).map (fun u => (u.2.2.1 - u.1, u.2.2.2 - u.2.1))

/-- Cell size under autocrop after the padding and square steps
(filmstrip.py:250-261), falling back to `get_max_dimensions` when no
content was found (filmstrip.py:213-216, 245-248). -/
def autocropCellSize (imgs : List Img) (fixed_center : Bool)
    (padding : Nat) (square : Bool) : Nat × Nat :=
  match cropCellSize imgs fixed_center with
  | none => get_max_dimensions imgs
  | some (w, h) =>
      let padded := if padding > 0 then (w + padding * 2, h + padding * 2) else (w, h)
      if square then
        (max padded.1 padded.2, max padded.1 padded.2)
      else padded

/-- Resolved cell size before the zero guard (filmstrip.py:158-266). -/
def preCellSize (imgs : List Img) (autocrop fixed_center : Bool)
    (padding : Nat) (square : Bool) : Nat × Nat :=
  if autocrop then autocropCellSize imgs fixed_center padding square
  else get_max_dimensions imgs

/-- Final cell size including the `1×1` substitution when either
dimension resolved to `0` (filmstrip.py:270-273). -/
def computeCellSize (imgs : List Img) (autocrop fixed_center : Bool)
    (padding : Nat) (square : Bool) : Nat × Nat :=
  if (preCellSize imgs autocrop fixed_center padding square).1 = 0 ∨
      (preCellSize imgs autocrop fixed_center padding square).2 = 0 then (1, 1)
  else preCellSize imgs autocrop fixed_center padding square

/-! ## Output filename (filmstrip.py:153-154, 364-366) -/

/-- Model of Python's `str.lower()` as a characterwise map
(the save formats in play are ASCII). -/
def lowerStr (s : String) : String :=
  String.mk (s.data.map Char.toLower)

/-- Name sanitisation `name.replace(' ', '-')` (filmstrip.py:154),
as a characterwise map over the string's characters. -/
def sanitizeName (name : String) : String :=
  String.mk (name.data.map (fun c => if c = ' ' then '-' else c))

/-- Output filename construction (filmstrip.py:364-366):
`{name}_{cellW}x{cellH}_{numImages}_{cols}x{rows}.{save_format.lower()}`
with the name sanitized at filmstrip.py:154. -/
def buildFilename (name : String) (cell_width cell_height num_images cols rows : Nat)
    (save_format : String) : String :=
  sanitizeName name ++ "_" ++ toString cell_width ++ "x" ++ toString cell_height ++
    "_" ++ toString num_images ++ "_" ++ toString cols ++ "x" ++ toString rows ++
    "." ++ lowerStr save_format

/-! ## Natural sort (`natural_sort_key`, filmstrip.py:29-36)

Python's `re.split('([0-9]+)', s)` with a capturing group yields an
alternating list `[text, digits, text, digits, ..., text]` whose text
chunks may be empty; the comprehension then maps digit runs through
`int` and everything else through `str.lower`. -/

/-- One element of the sort key: a lowercased text chunk or the numeric
value of a digit run. -/
inductive SortKey where
  | str (s : String)
  | num (n : Nat)
deriving DecidableEq, Repr

/-- Predicate for the text alternative of `SortKey`. -/
def SortKey.isStr : SortKey → Bool
  | .str _ => true
  | .num _ => false

/-- Predicate for the numeric alternative of `SortKey`. -/
def SortKey.isNum : SortKey → Bool
  | .str _ => false
  | .num _ => true

mutual

/-- Key construction while scanning a text chunk; `acc` holds the
lowercased characters read so far, in reverse. -/
def goText (acc : List Char) : List Char → List SortKey
  | [] => [.str (String.mk acc.reverse)]
  | c :: cs =>
      if c.isDigit then
        .str (String.mk acc.reverse) :: goNum (c.toNat - 48) cs
      else goText (c.toLower :: acc) cs

/-- Key construction while scanning a digit run; `v` is the numeric
value of the digits read so far (`int` of the run, leading zeros and all). -/
def goNum (v : Nat) : List Char → List SortKey
  | [] => [.num v, .str ""]
  | c :: cs =>
      if c.isDigit then goNum (v * 10 + (c.toNat - 48)) cs
      else .num v :: goText [c.toLower] cs

end

/-- Embedding of `FilmstripGenerator.natural_sort_key` (filmstrip.py:29-36). -/
def natural_sort_key (s : String) : List SortKey := goText [] s.data

/-- Comparison of two key elements, modelling Python's `<`/`==` on
`int` and `str`: `none` models the `TypeError` raised on an
`int`-vs-`str` comparison. -/
def compareKey : SortKey → SortKey → Option Ordering
  | .num a, .num b => some (compare a b)
  | .str a, .str b => some (compare a b)
  | _, _ => none

/-- Lexicographic comparison of two keys as Python compares lists:
elementwise, a strict prefix is smaller. -/
def compareKeyList : List SortKey → List SortKey → Option Ordering
  | [], [] => some .eq
  | [], _ :: _ => some .lt
  | _ :: _, [] => some .gt
  | a :: as, b :: bs =>
      match compareKey a b with
      | none => none
      | some .eq => compareKeyList as bs
      | some o => some o

/-- Key order used by `sorted(..., key=natural_sort_key)`: `a` may come
before `b` when its key is not greater. (The `none` case never arises —
see the alternation results below.) -/
def natLe (a b : String) : Bool :=
  match compareKeyList (natural_sort_key a) (natural_sort_key b) with
  | some .gt => false
  | _ => true

/-- Insertion into a sorted list, the inductive core of a stable sort. -/
def insertSorted (a : String) : List String → List String
  | [] => [a]
  | b :: bs => if natLe a b then a :: b :: bs else b :: insertSorted a bs

/-- Model of Python's `sorted(strings, key=natural_sort_key)` as an
insertion sort by `natLe` (filmstrip.py:413-414). -/
def sortNat : List String → List String
  | [] => []
  | a :: as => insertSorted a (sortNat as)

/-- Structural shape of a key produced by a text scan: non-empty, of
the form `(str num)* str` — text first, strict alternation, text last. -/
def altS : List SortKey → Bool
  | [.str _] => true
  | .str _ :: .num _ :: rest => altS rest
  | _ => false

/-! ## Refined natural-sort model with Python's `isdigit` re-check

The comprehension at filmstrip.py:35-36 re-tests every chunk with
`text.isdigit()`, which is a Unicode test: the regex `[0-9]+` splits
only on ASCII digits, but a non-captured chunk made of other Unicode
digit characters (e.g. Arabic-Indic `'٣'`) still satisfies `isdigit()`
and is converted by `int`, and a chunk of digit-property characters
that are not decimal digits (e.g. superscript `'²'`) makes `int` raise
`ValueError`. The refined model below captures this; it is exact on
ASCII and on the non-ASCII characters this development reasons about
(Arabic-Indic digits U+0660–U+0669 and the superscripts `'¹'`, `'²'`,
`'³'`); other Unicode digit characters are outside the modelled scope,
which is why the general alternation theorem quantifies only over ASCII
strings, where the model is exact. -/

/-- Python's per-character `str.isdigit()` test on the modelled
character classes: ASCII digits, Arabic-Indic digits and the three
superscript digits; all other modelled characters test false. -/
def pyIsDigitChar (c : Char) : Bool :=
  c.isDigit || (0x660 ≤ c.toNat && c.toNat ≤ 0x669) ||
    c = '¹' || c = '²' || c = '³'

/-- Decimal value a character contributes in Python's `int()`: `some`
for the modelled Unicode decimal digits (ASCII and Arabic-Indic),
`none` for characters `int` rejects with `ValueError`, such as the
superscript digits (digit property without decimal value). -/
def pyDecimalVal (c : Char) : Option Nat :=
  if c.isDigit then some (c.toNat - 48)
  else if 0x660 ≤ c.toNat && c.toNat ≤ 0x669 then some (c.toNat - 0x660)
  else none

/-- Python `int(text)` over the characters of a chunk, with an
accumulator; `none` models the `ValueError` on a non-decimal character. -/
def pyIntFrom (v : Nat) : List Char → Option Nat
  | [] => some v
  | c :: cs =>
      match pyDecimalVal c with
      | none => none
      | some d => pyIntFrom (v * 10 + d) cs

mutual

/-- Raw chunking of `re.split('([0-9]+)', s)` while scanning a text
chunk; `acc` holds the chunk's characters so far, in reverse. -/
def chunkText (acc : List Char) : List Char → List (List Char)
  | [] => [acc.reverse]
  | c :: cs =>
      if c.isDigit then acc.reverse :: chunkNum [c] cs
      else chunkText (c :: acc) cs

/-- Raw chunking while scanning a captured ASCII digit run. -/
def chunkNum (acc : List Char) : List Char → List (List Char)
  | [] => [acc.reverse, []]
  | c :: cs =>
      if c.isDigit then chunkNum (c :: acc) cs
      else acc.reverse :: chunkText [c] cs

end

/-- Chunk list of `re.split('([0-9]+)', str(s))`: alternating text and
ASCII-digit chunks, text chunks possibly empty, text first and last. -/
def reSplitDigits (s : String) : List (List Char) := chunkText [] s.data

/-- One comprehension element, `int(text) if text.isdigit() else
text.lower()` (filmstrip.py:35): `none` models the `ValueError` from
`int` on a digit-property chunk without decimal value. -/
def pyChunkKey (cs : List Char) : Option SortKey :=
  if cs ≠ [] ∧ cs.all pyIsDigitChar then
    (pyIntFrom 0 cs).map SortKey.num
  else
    some (.str (String.mk (cs.map Char.toLower)))

/-- The comprehension loop over all chunks; the first `ValueError`
aborts the whole key construction, as in Python. -/
def pyKeyChunks : List (List Char) → Option (List SortKey)
  | [] => some []
  | c :: cs =>
      match pyChunkKey c, pyKeyChunks cs with
      | some k, some ks => some (k :: ks)
      | _, _ => none

/-- Refined embedding of `FilmstripGenerator.natural_sort_key`
(filmstrip.py:29-36) including the `isdigit()` re-check on every chunk;
`none` models a raised `ValueError`. On ASCII strings it coincides with
`natural_sort_key` (lemma `pyKey_ascii`). -/
def pyNaturalSortKey (s : String) : Option (List SortKey) :=
  pyKeyChunks (reSplitDigits s)

/-! ## Helper lemmas -/

lemma altGo (cs : List Char) :
    (∀ acc, altS (goText acc cs) = true) ∧
    (∀ v, ∃ w rest, goNum v cs = .num w :: rest ∧ altS rest = true) := by
  induction cs with
  | nil =>
      constructor
      · intro acc; simp [goText, altS]
      · intro v; exact ⟨v, [.str ""], rfl, rfl⟩
  | cons c cs ih =>
      constructor
      · intro acc
        by_cases hd : c.isDigit
        · rw [goText, if_pos hd]
          obtain ⟨w, rest, hrest, haltr⟩ := ih.2 (c.toNat - 48)
          rw [hrest]
          simpa [altS] using haltr
        · rw [goText, if_neg hd]
          exact ih.1 _
      · intro v
        by_cases hd : c.isDigit
        · rw [goNum, if_pos hd]
          exact ih.2 _
        · rw [goNum, if_neg hd]
          exact ⟨v, _, rfl, ih.1 _⟩

lemma altS_key (s : String) : altS (natural_sort_key s) = true :=
  (altGo s.data).1 []

lemma altS_shape (l : List SortKey) (h : altS l = true) :
    (∃ s, l = [.str s]) ∨
      ∃ s n rest, l = .str s :: .num n :: rest ∧ altS rest = true := by
  match l with
  | [] => simp [altS] at h
  | [.str s] => exact .inl ⟨s, rfl⟩
  | [.num n] => simp [altS] at h
  | .num n :: x :: rest => simp [altS] at h
  | .str s :: .str t :: rest => simp [altS] at h
  | .str s :: .num n :: rest =>
      exact .inr ⟨s, n, rest, rfl, by simpa [altS] using h⟩

lemma altS_parity : ∀ (l : List SortKey), altS l = true →
    ∀ i x, l.get? i = some x →
      (if i % 2 = 0 then x.isStr = true else x.isNum = true)
  | l, h => by
    rcases altS_shape l h with ⟨s, rfl⟩ | ⟨s, n, rest, rfl, hr⟩
    · intro i x hx
      match i with
      | 0 => simp at hx; subst hx; simp [SortKey.isStr]
      | i + 1 => simp at hx
    · intro i x hx
      match i with
      | 0 => simp at hx; subst hx; simp [SortKey.isStr]
      | 1 => simp at hx; subst hx; simp [SortKey.isNum]
      | i + 2 =>
          have hx' : rest.get? i = some x := by simpa using hx
          have := altS_parity rest hr i x hx'
          simpa [Nat.add_mod_right] using this

lemma compareKeyList_total : ∀ l1 l2 : List SortKey,
    altS l1 = true → altS l2 = true → compareKeyList l1 l2 ≠ none
  | l1, l2, h1, h2 => by
    rcases altS_shape l1 h1 with ⟨s, rfl⟩ | ⟨s, n, r1, rfl, hr1⟩ <;>
      rcases altS_shape l2 h2 with ⟨t, rfl⟩ | ⟨t, m, r2, rfl, hr2⟩
    · simp [compareKeyList, compareKey]
      cases compare s t <;> simp [compareKeyList]
    · simp [compareKeyList, compareKey]
      cases compare s t <;> simp [compareKeyList]
    · simp [compareKeyList, compareKey]
      cases compare s t <;> simp [compareKeyList]
    · simp only [compareKeyList, compareKey]
      cases compare s t <;> simp [compareKeyList, compareKey]
      cases compare n m <;> simp [compareKeyList, compareKey]
      exact compareKeyList_total r1 r2 hr1 hr2

lemma pyIsDigitChar_ascii (c : Char) (h : c.toNat < 128) :
    pyIsDigitChar c = c.isDigit := by
  have h1 : c ≠ '¹' := fun hc => absurd h (by subst hc; decide)
  have h2 : c ≠ '²' := fun hc => absurd h (by subst hc; decide)
  have h3 : c ≠ '³' := fun hc => absurd h (by subst hc; decide)
  have h4 : (0x660 ≤ c.toNat && c.toNat ≤ 0x669) = false := by
    simp only [Bool.and_eq_false_iff, decide_eq_false_iff_not]
    omega
  simp [pyIsDigitChar, h1, h2, h3, h4]

lemma pyChunkKey_text (cs : List Char)
    (h : ∀ c ∈ cs, c.toNat < 128 ∧ c.isDigit = false) :
    pyChunkKey cs = some (.str (String.mk (cs.map Char.toLower))) := by
  match cs with
  | [] => rfl
  | c :: cs' =>
      rw [pyChunkKey, if_neg]
      intro ⟨_, hall⟩
      rw [List.all_eq_true] at hall
      have hc := h c (List.mem_cons_self _ _)
      have := hall c (List.mem_cons_self _ _)
      rw [pyIsDigitChar_ascii c hc.1, hc.2] at this
      exact Bool.false_ne_true this

lemma pyIntFrom_digits : ∀ ds : List Char, (∀ c ∈ ds, c.isDigit = true) → ∀ v,
    pyIntFrom v ds = some (ds.foldl (fun a c => a * 10 + (c.toNat - 48)) v) := by
  intro ds
  induction ds with
  | nil => intro _ v; rfl
  | cons c cs ih =>
      intro h v
      have hc := h c (List.mem_cons_self _ _)
      rw [pyIntFrom, pyDecimalVal, if_pos hc, List.foldl_cons]
      exact ih (fun x hx => h x (List.mem_cons_of_mem _ hx)) _

lemma pyChunkKey_digits (cs : List Char) (hne : cs ≠ [])
    (h : ∀ c ∈ cs, c.isDigit = true) :
    pyChunkKey cs =
      some (.num (cs.foldl (fun a c => a * 10 + (c.toNat - 48)) 0)) := by
  rw [pyChunkKey, if_pos, pyIntFrom_digits cs h 0]
  · rfl
  · refine ⟨hne, ?_⟩
    rw [List.all_eq_true]
    intro c hc
    simp [pyIsDigitChar, h c hc]

lemma pyChunks_ascii : ∀ cs : List Char, (∀ x ∈ cs, x.toNat < 128) →
    (∀ acc, (∀ x ∈ acc, x.toNat < 128 ∧ x.isDigit = false) →
      pyKeyChunks (chunkText acc cs) = some (goText (acc.map Char.toLower) cs)) ∧
    (∀ acc, acc ≠ [] → (∀ x ∈ acc, x.isDigit = true) →
      pyKeyChunks (chunkNum acc cs) =
        some (goNum (acc.reverse.foldl (fun a c => a * 10 + (c.toNat - 48)) 0) cs)) := by
  intro cs
  induction cs with
  | nil =>
      intro _
      constructor
      · intro acc hacc
        rw [chunkText, goText, pyKeyChunks,
          pyChunkKey_text acc.reverse (fun x hx => hacc x (List.mem_reverse.mp hx)),
          pyKeyChunks]
        rw [List.map_reverse]
      · intro acc hne hdig
        rw [chunkNum, goNum, pyKeyChunks,
          pyChunkKey_digits acc.reverse (by simpa using hne)
            (fun x hx => hdig x (List.mem_reverse.mp hx)),
          pyKeyChunks, pyChunkKey_text [] (by simp), pyKeyChunks]
        rfl
  | cons c cs ih =>
      intro hcs
      have hcs' : ∀ x ∈ cs, x.toNat < 128 :=
        fun x hx => hcs x (List.mem_cons_of_mem _ hx)
      have hc : c.toNat < 128 := hcs c (List.mem_cons_self _ _)
      obtain ⟨ihT, ihN⟩ := ih hcs'
      constructor
      · intro acc hacc
        by_cases hd : c.isDigit
        · rw [chunkText, if_pos hd, goText, if_pos hd, pyKeyChunks,
            pyChunkKey_text acc.reverse (fun x hx => hacc x (List.mem_reverse.mp hx)),
            ihN [c] (by simp) (by simpa using hd)]
          rw [List.map_reverse]
          simp
        · rw [chunkText, if_neg hd, goText, if_neg hd]
          exact ihT (c :: acc) (fun x hx => by
            rcases List.mem_cons.mp hx with rfl | hmem
            · exact ⟨hc, by simpa using hd⟩
            · exact hacc x hmem)
      · intro acc hne hdig
        by_cases hd : c.isDigit
        · rw [chunkNum, if_pos hd, goNum, if_pos hd,
            ihN (c :: acc) (by simp) (fun x hx => by
              rcases List.mem_cons.mp hx with rfl | hmem
              · exact hd
              · exact hdig x hmem)]
          rw [List.reverse_cons, List.foldl_append]
          rfl
        · rw [chunkNum, if_neg hd, goNum, if_neg hd, pyKeyChunks,
            pyChunkKey_digits acc.reverse (by simpa using hne)
              (fun x hx => hdig x (List.mem_reverse.mp hx)),
            ihT [c] (fun x hx => by
              rcases List.mem_cons.mp hx with rfl | hmem
              · exact ⟨hc, by simpa using hd⟩
              · simp at hmem)]
          rfl

lemma pyKey_ascii (s : String) (hs : ∀ c ∈ s.data, c.toNat < 128) :
    pyNaturalSortKey s = some (natural_sort_key s) := by
  have h := (pyChunks_ascii s.data hs).1 [] (by simp)
  simpa [pyNaturalSortKey, reSplitDigits, natural_sort_key] using h

lemma ceilSqrtFrom_spec (n : Nat) :
    ∀ fuel k, (∀ j, j < k → j * j < n) → k + fuel = n →
      n ≤ ceilSqrtFrom n k fuel * ceilSqrtFrom n k fuel ∧
        ∀ j, j < ceilSqrtFrom n k fuel → j * j < n := by
  intro fuel
  induction fuel with
  | zero =>
      intro k hinv hsum
      have hk : k = n := by omega
      subst hk
      refine ⟨?_, hinv⟩
      cases Nat.eq_zero_or_pos k with
      | inl h0 => simp [ceilSqrtFrom, h0]
      | inr hpos => simpa [ceilSqrtFrom] using Nat.le_mul_of_pos_left k hpos
  | succ fuel ih =>
      intro k hinv hsum
      simp only [ceilSqrtFrom]
      split
      · exact ⟨by assumption, hinv⟩
      · refine ih (k + 1) ?_ (by omega)
        intro j hj
        rcases Nat.lt_succ_iff_lt_or_eq.mp hj with hlt | heq
        · exact hinv j hlt
        · subst heq; omega

lemma ceilSqrt_spec (n : Nat) :
    n ≤ ceilSqrt n * ceilSqrt n ∧ ∀ j, j < ceilSqrt n → j * j < n :=
  ceilSqrtFrom_spec n n 0 (by omega) (by omega)

lemma ceilSqrt_pos (n : Nat) (h : 1 ≤ n) : 1 ≤ ceilSqrt n := by
  rcases Nat.eq_zero_or_pos (ceilSqrt n) with h0 | h1
  · have := (ceilSqrt_spec n).1
    rw [h0] at this
    omega
  · exact h1

lemma ceil_div_ge (n c : Nat) (hc : 0 < c) : n ≤ c * ((n + c - 1) / c) := by
  have key := Nat.div_add_mod (n + c - 1) c
  have hm : (n + c - 1) % c < c := Nat.mod_lt _ hc
  generalize c * ((n + c - 1) / c) = p at key ⊢
  omega

lemma ceil_div_min (n c r : Nat) (hc : 0 < c) (h : n ≤ c * r) :
    (n + c - 1) / c ≤ r := by
  rw [Nat.div_le_iff_le_mul_add_pred hc]
  generalize c * r = p at h ⊢
  omega

lemma ceil_div_pos (n c : Nat) (hc : 0 < c) (hn : 1 ≤ n) :
    1 ≤ (n + c - 1) / c := by
  rcases Nat.eq_zero_or_pos ((n + c - 1) / c) with h0 | h1
  · have := ceil_div_ge n c hc
    rw [h0] at this
    omega
  · exact h1

lemma calculate_optimal_dimensions_eq (n : Nat) (h : 1 ≤ n) :
    calculate_optimal_dimensions n =
      (ceilSqrt n, (n + ceilSqrt n - 1) / ceilSqrt n) := by
  rw [calculate_optimal_dimensions, if_neg (by omega)]

lemma resolveGridDims_pos (n : Nat) (g : Option Nat) (cols rows : Nat) (hn : 1 ≤ n)
    (h : resolveGridDims n g = .ok (cols, rows)) : 1 ≤ cols ∧ 1 ≤ rows := by
  match g with
  | none =>
      rw [resolveGridDims] at h
      injection h with h
      rw [calculate_optimal_dimensions, if_neg (by omega)] at h
      have hc := ceilSqrt_pos n hn
      have hr := ceil_div_pos n (ceilSqrt n) hc hn
      cases h
      exact ⟨hc, hr⟩
  | some gv =>
      rw [resolveGridDims] at h
      by_cases hlt : gv < calculate_grid_size n
      · rw [if_pos hlt] at h
        exact absurd h (by simp)
      · rw [if_neg hlt] at h
        injection h with h
        obtain ⟨rfl, rfl⟩ := Prod.mk.inj h
        have hgr : calculate_grid_size n = ceilSqrt n := by
          rw [calculate_grid_size, if_neg (by omega)]
        rw [hgr] at hlt
        have hcp := ceilSqrt_pos n hn
        exact ⟨by omega, by omega⟩

lemma radiiStep_eq (acc : ℚ × ℚ) (img : Img) :
    radiiStep acc img = if img.bbox.isSome = true
      then (max acc.1 (hRad img), max acc.2 (vRad img)) else acc := by
  rcases himg : img.bbox with _ | ⟨l, t, r, b⟩ <;>
    simp [radiiStep, hRad, vRad, himg]

lemma hRad_none (img : Img) (h : img.bbox.isSome = false) : hRad img = 0 := by
  rcases himg : img.bbox with _ | u
  · simp [hRad, himg]
  · simp [himg] at h

lemma vRad_none (img : Img) (h : img.bbox.isSome = false) : vRad img = 0 := by
  rcases himg : img.bbox with _ | u
  · simp [vRad, himg]
  · simp [himg] at h

lemma radii_foldl (imgs : List Img) : ∀ acc : ℚ × ℚ, 0 ≤ acc.1 → 0 ≤ acc.2 →
    (acc.1 ≤ (imgs.foldl radiiStep acc).1 ∧ acc.2 ≤ (imgs.foldl radiiStep acc).2) ∧
    (∀ img ∈ imgs, hRad img ≤ (imgs.foldl radiiStep acc).1 ∧
      vRad img ≤ (imgs.foldl radiiStep acc).2) ∧
    ((imgs.foldl radiiStep acc).1 = acc.1 ∨
      ∃ img ∈ imgs, hRad img = (imgs.foldl radiiStep acc).1) ∧
    ((imgs.foldl radiiStep acc).2 = acc.2 ∨
      ∃ img ∈ imgs, vRad img = (imgs.foldl radiiStep acc).2) := by
  induction imgs with
  | nil => intro acc _ _; simp
  | cons i is ih =>
      intro acc h01 h02
      simp only [List.foldl_cons, radiiStep_eq acc i]
      by_cases hb : i.bbox.isSome = true
      · simp only [hb, if_true]
        obtain ⟨⟨hm1, hm2⟩, hub, hat1, hat2⟩ :=
          ih (max acc.1 (hRad i), max acc.2 (vRad i))
            (le_trans h01 (le_max_left _ _)) (le_trans h02 (le_max_left _ _))
        simp only at hm1 hm2 hat1 hat2
        refine ⟨⟨le_trans (le_max_left _ _) hm1, le_trans (le_max_left _ _) hm2⟩, ?_, ?_, ?_⟩
        · intro img himg
          rcases List.mem_cons.mp himg with rfl | hmem
          · exact ⟨le_trans (le_max_right _ _) hm1, le_trans (le_max_right _ _) hm2⟩
          · exact hub img hmem
        · rcases hat1 with heq | hex
          · rcases max_cases acc.1 (hRad i) with ⟨hcase, _⟩ | ⟨hcase, _⟩
            · exact .inl (by rw [heq, hcase])
            · exact .inr ⟨i, List.mem_cons_self i is, by rw [heq, hcase]⟩
          · obtain ⟨img, hmem, heq⟩ := hex
            exact .inr ⟨img, List.mem_cons_of_mem _ hmem, heq⟩
        · rcases hat2 with heq | hex
          · rcases max_cases acc.2 (vRad i) with ⟨hcase, _⟩ | ⟨hcase, _⟩
            · exact .inl (by rw [heq, hcase])
            · exact .inr ⟨i, List.mem_cons_self i is, by rw [heq, hcase]⟩
          · obtain ⟨img, hmem, heq⟩ := hex
            exact .inr ⟨img, List.mem_cons_of_mem _ hmem, heq⟩
      · rw [Bool.not_eq_true] at hb
        simp only [hb, Bool.false_eq_true, if_false]
        obtain ⟨⟨hm1, hm2⟩, hub, hat1, hat2⟩ := ih acc h01 h02
        refine ⟨⟨hm1, hm2⟩, ?_, ?_, ?_⟩
        · intro img himg
          rcases List.mem_cons.mp himg with rfl | hmem
          · rw [hRad_none img hb, vRad_none img hb]
            exact ⟨le_trans h01 hm1, le_trans h02 hm2⟩
          · exact hub img hmem
        · rcases hat1 with heq | hex
          · exact .inl heq
          · obtain ⟨img, hmem, heq⟩ := hex
            exact .inr ⟨img, List.mem_cons_of_mem _ hmem, heq⟩
        · rcases hat2 with heq | hex
          · exact .inl heq
          · obtain ⟨img, hmem, heq⟩ := hex
            exact .inr ⟨img, List.mem_cons_of_mem _ hmem, heq⟩

lemma ceil_eval (q : ℚ) (z : ℤ) (h1 : (z : ℚ) - 1 < q) (h2 : q ≤ (z : ℚ)) :
    ⌈q⌉ = z := by
  rw [Int.ceil_eq_iff]
  exact ⟨h1, h2⟩

/-! ## Claim theorems -/

/-- C1: for every `count ∈ [1,100]`, default grid dimensioning returns
`cols = ⌈√count⌉` (the least `k` with `k*k ≥ count`) and
`rows = ⌈count/cols⌉` (characterised by `cols*(rows-1) < count ≤ cols*rows`),
satisfying `cols*rows ≥ count`, `cols*rows < count + max cols rows` and
`cols ≥ rows`; in particular `9 ↦ (3,3)`, `5 ↦ (3,2)`, `10 ↦ (4,3)`. -/
theorem grid_default_dimensions :
    (∀ count : Nat, count < 101 → 1 ≤ count →
      count ≤ (calculate_optimal_dimensions count).1 * (calculate_optimal_dimensions count).1 ∧
      (∀ k, k < (calculate_optimal_dimensions count).1 → k * k < count) ∧
      count ≤ (calculate_optimal_dimensions count).1 * (calculate_optimal_dimensions count).2 ∧
      (calculate_optimal_dimensions count).1 * ((calculate_optimal_dimensions count).2 - 1) < count ∧
      (calculate_optimal_dimensions count).1 * (calculate_optimal_dimensions count).2 <
        count + max (calculate_optimal_dimensions count).1 (calculate_optimal_dimensions count).2 ∧
      (calculate_optimal_dimensions count).2 ≤ (calculate_optimal_dimensions count).1) ∧
    calculate_optimal_dimensions 9 = (3, 3) ∧
    calculate_optimal_dimensions 5 = (3, 2) ∧
    calculate_optimal_dimensions 10 = (4, 3) := by
  refine ⟨?_, by decide, by decide, by decide⟩
  set_option maxRecDepth 20000 in decide

/-- Witness for C1 at `count = 10`. -/
theorem grid_default_dimensions_witness :
    10 < 101 ∧ 1 ≤ 10 ∧
      (10 ≤ (calculate_optimal_dimensions 10).1 * (calculate_optimal_dimensions 10).1 ∧
      (∀ k, k < (calculate_optimal_dimensions 10).1 → k * k < 10) ∧
      10 ≤ (calculate_optimal_dimensions 10).1 * (calculate_optimal_dimensions 10).2 ∧
      (calculate_optimal_dimensions 10).1 * ((calculate_optimal_dimensions 10).2 - 1) < 10 ∧
      (calculate_optimal_dimensions 10).1 * (calculate_optimal_dimensions 10).2 <
        10 + max (calculate_optimal_dimensions 10).1 (calculate_optimal_dimensions 10).2 ∧
      (calculate_optimal_dimensions 10).2 ≤ (calculate_optimal_dimensions 10).1) :=
  ⟨by decide, by decide, grid_default_dimensions.1 10 (by decide) (by decide)⟩

/-- C2 is false as stated: for `count = 3` the code returns a `2×2` grid
(4 cells), but the positive pair `(3, 1)` satisfies `3*1 ≥ 3` with
`3*1 < 4`, so total cells are not globally minimal. -/
theorem grid_minimality_counterexample :
    0 < (3 : Nat) ∧ 0 < (1 : Nat) ∧ 3 ≤ 3 * 1 ∧
      3 * 1 < (calculate_optimal_dimensions 3).1 * (calculate_optimal_dimensions 3).2 := by
  decide

/-- C2 (amended): for every `count > 0`, `cols*rows ≥ count` and `rows`
is minimal for the computed `cols`: no grid with the same `cols` and
fewer rows holds all images. (Global minimality over all column counts
fails, see the counterexample.) -/
theorem grid_rows_minimal_for_cols (n : Nat) (h : 1 ≤ n) :
    n ≤ (calculate_optimal_dimensions n).1 * (calculate_optimal_dimensions n).2 ∧
    ∀ r : Nat, n ≤ (calculate_optimal_dimensions n).1 * r →
      (calculate_optimal_dimensions n).2 ≤ r := by
  have hcpos := ceilSqrt_pos n h
  rw [calculate_optimal_dimensions_eq n h]
  exact ⟨ceil_div_ge n _ hcpos, fun r hr => ceil_div_min n _ r hcpos hr⟩

/-- Witness for the amended C2 at `count = 5`: a 3-column grid with 2
rows holds 5 images, and minimality yields `rows(5) ≤ 2`. -/
theorem grid_rows_minimal_for_cols_witness :
    1 ≤ 5 ∧ (calculate_optimal_dimensions 5).2 ≤ 2 :=
  ⟨by decide, (grid_rows_minimal_for_cols 5 (by decide)).2 2 (by decide)⟩

/-- C3: for `count > 0`, an override `g` makes `create_filmstrip` raise
the invalid-grid-size `ValueError` exactly when `g < ⌈√count⌉` (the
least `k` with `k*k ≥ count`); otherwise it proceeds with the square
grid `(g, g)`. In particular `count = 10` fails for `g = 3` and gives a
`4×4` grid for `g = 4`. -/
theorem grid_override_validation (n g : Nat) (h : 1 ≤ n) :
    ((∃ msg, resolveGridDims n (some g) = .error msg) ↔ g < ceilSqrt n) ∧
    (n ≤ ceilSqrt n * ceilSqrt n ∧ ∀ k, k < ceilSqrt n → k * k < n) ∧
    (ceilSqrt n ≤ g → resolveGridDims n (some g) = .ok (g, g)) ∧
    (∃ msg, resolveGridDims 10 (some 3) = .error msg) ∧
    resolveGridDims 10 (some 4) = .ok (4, 4) := by
  have hgrid : calculate_grid_size n = ceilSqrt n := by
    rw [calculate_grid_size, if_neg (by omega)]
  refine ⟨?_, ceilSqrt_spec n, ?_, ⟨_, rfl⟩, rfl⟩
  · rw [resolveGridDims, hgrid]
    constructor
    · intro ⟨msg, hmsg⟩
      by_contra hge
      rw [if_neg hge] at hmsg
      exact Except.noConfusion hmsg
    · intro hlt
      rw [if_pos hlt]
      exact ⟨_, rfl⟩
  · intro hge
    rw [resolveGridDims, hgrid, if_neg (by omega)]

/-- Witness for C3 at `count = 10`, `override = 4`. -/
theorem grid_override_validation_witness :
    1 ≤ 10 ∧ resolveGridDims 10 (some 4) = .ok (4, 4) :=
  ⟨by decide, (grid_override_validation 10 4 (by decide)).2.2.1 (by decide)⟩

/-- C7: the natural sort key splits strings on maximal digit runs
(digit runs become integers, other runs lowercased text, leading zeros
dropped by `int`), and sorting by it orders embedded numbers
numerically: `["a10","a2","a1"]` sorts to `["a1","a2","a10"]` and
`"Image_2.webp"` compares below `"Image_10.webp"`. -/
theorem natural_sort_examples :
    sortNat ["a10", "a2", "a1"] = ["a1", "a2", "a10"] ∧
    compareKeyList (natural_sort_key "Image_2.webp")
      (natural_sort_key "Image_10.webp") = some .lt ∧
    natural_sort_key "a10" = [.str "a", .num 10, .str ""] ∧
    natural_sort_key "Ab12xy003" = [.str "ab", .num 12, .str "xy", .num 3, .str ""] ∧
    natural_sort_key "Image_2.webp" =
      [.str "image_", .num 2, .str ".webp"] := by
  refine ⟨by decide, by decide, by decide, by decide, by decide⟩

/-- C8: the output filename is
`{sanitizedName}_{cellW}x{cellH}_{count}_{cols}x{rows}.{ext}` with
spaces of the name replaced by hyphens and the extension the lowercased
save format; `name="My Clip"`, cell `64×64`, count `7`, grid `3×3`,
format WEBP yields `"My-Clip_64x64_7_3x3.webp"`. -/
theorem output_filename_format :
    buildFilename "My Clip" 64 64 7 3 3 "WEBP" = "My-Clip_64x64_7_3x3.webp" ∧
    (∀ name cw ch n c r fmt, buildFilename name cw ch n c r fmt =
      sanitizeName name ++ "_" ++ toString cw ++ "x" ++ toString ch ++ "_" ++
        toString n ++ "_" ++ toString c ++ "x" ++ toString r ++ "." ++ lowerStr fmt) ∧
    (∀ name, (sanitizeName name).data =
      name.data.map (fun c => if c = ' ' then '-' else c)) ∧
    (∀ name, ' ' ∉ (sanitizeName name).data) ∧
    lowerStr "WEBP" = "webp" ∧ lowerStr "PNG" = "png" := by
  refine ⟨by decide, fun _ _ _ _ _ _ _ => rfl, fun _ => rfl, ?_, by decide, by decide⟩
  intro name h
  rw [sanitizeName] at h
  simp only [List.mem_map] at h
  obtain ⟨c, _, hc⟩ := h
  by_cases hsp : c = ' ' <;> simp [hsp] at hc

/-- Witness for C8 on a second concrete input. -/
theorem output_filename_format_witness :
    buildFilename "a b" 1 2 3 4 5 "PNG" = "a-b_1x2_3_4x5.png" ∧
    ' ' ∉ (sanitizeName "x y").data :=
  ⟨(output_filename_format.2.1 "a b" 1 2 3 4 5 "PNG").trans (by decide),
   output_filename_format.2.2.2.1 "x y"⟩

/-- C10 fails as stated for Unicode input: Python's `isdigit()` re-check
converts the non-captured Arabic-Indic digit chunk `"٣"` to the integer
`3`, putting an integer at even index 0 of the key and making the
comparison against an ordinary text key an int-versus-str `TypeError`
(marker `none`); and on the superscript digit `"²"` the comprehension
raises `ValueError` (`none` key), so sorting is not total for every
input string. -/
theorem natural_sort_unicode_counterexample :
    pyNaturalSortKey "٣" = some [.num 3] ∧
    (SortKey.num 3).isStr = false ∧
    natural_sort_key "a" = [.str "a"] ∧
    compareKeyList [.num 3] (natural_sort_key "a") = none ∧
    pyNaturalSortKey "²" = none :=
  ⟨by decide, by decide, by decide, by decide, by decide⟩

/-- C10 (amended): for strings of ASCII characters — where the regex's
`[0-9]` digit runs and the `isdigit()` re-check coincide — the key
(computed with the re-check, never raising) equals the plain key, whose
elements at even indices are lowercased strings and at odd indices
integers, and the lexicographic comparison of two such keys never
reaches an integer-versus-string comparison, so sorting ASCII strings
by this key is total with no fallback branch needed. For general
Unicode input the property fails (see the counterexample). -/
theorem natural_sort_ascii_alternates (s t : String)
    (hs : ∀ c ∈ s.data, c.toNat < 128) (ht : ∀ c ∈ t.data, c.toNat < 128) :
    pyNaturalSortKey s = some (natural_sort_key s) ∧
    pyNaturalSortKey t = some (natural_sort_key t) ∧
    (∀ i x, (natural_sort_key s).get? i = some x →
      (if i % 2 = 0 then x.isStr = true else x.isNum = true)) ∧
    compareKeyList (natural_sort_key s) (natural_sort_key t) ≠ none :=
  ⟨pyKey_ascii s hs, pyKey_ascii t ht, altS_parity _ (altS_key s),
   compareKeyList_total _ _ (altS_key s) (altS_key t)⟩

/-- Witness for the amended C10 at `s = "a10"`, `t = "b"`. -/
theorem natural_sort_ascii_alternates_witness :
    pyNaturalSortKey "a10" = some (natural_sort_key "a10") ∧
    pyNaturalSortKey "b" = some (natural_sort_key "b") ∧
    (∀ i x, (natural_sort_key "a10").get? i = some x →
      (if i % 2 = 0 then x.isStr = true else x.isNum = true)) ∧
    compareKeyList (natural_sort_key "a10") (natural_sort_key "b") ≠ none :=
  natural_sort_ascii_alternates "a10" "b" (by decide) (by decide)

/-- C4 fails as stated: for a single `3×4` image whose bbox is the full
canvas, the horizontal radius is `3/2`, the code computes
`cellWidth = ceil(2 * 3/2) = 3`, but the claim's formula
`2 * ceil(maxHorizontalRadius)` gives `4`. -/
theorem center_preserving_counterexample :
    cropCellSize [⟨3, 4, some (0, 0, 3, 4)⟩] true = some (3, 4) ∧
    (2 * ⌈(centerRadii [⟨3, 4, some (0, 0, 3, 4)⟩]).1⌉).toNat = 4 ∧
    (cropCellSize [⟨3, 4, some (0, 0, 3, 4)⟩] true).map Prod.fst ≠
      some ((2 * ⌈(centerRadii [⟨3, 4, some (0, 0, 3, 4)⟩]).1⌉).toNat) := by
  have hrad : centerRadii [⟨3, 4, some (0, 0, 3, 4)⟩] = (3/2, 2) := by
    simp [centerRadii, radiiStep]
    constructor <;> norm_num [abs_of_nonneg]
  have h1 : cropCellSize [⟨3, 4, some (0, 0, 3, 4)⟩] true = some (3, 4) := by
    rw [cropCellSize]
    simp only [if_true, hasContent, List.any, Option.isSome, Bool.or_false]
    rw [hrad]
    norm_num
    constructor <;> rfl
  have h2 : (2 * ⌈(centerRadii [⟨3, 4, some (0, 0, 3, 4)⟩]).1⌉).toNat = 4 := by
    rw [hrad]
    rw [show ⌈(3:ℚ)/2⌉ = 2 from ceil_eval _ 2 (by norm_num) (by norm_num)]
    rfl
  refine ⟨h1, h2, ?_⟩
  rw [h1, h2]
  simp

/-- C4 (amended): under the CenterPreserving policy, when some image has
visible content the cell size is
`(ceil(2 * maxHorizontalRadius), ceil(2 * maxVerticalRadius))` — note
`ceil(2r)`, not `2*ceil(r)` as the claim's formula reads — where the
radii are the componentwise maxima over all images of the distances from
each image's own center `(width/2, height/2)` to its own bbox's
left/right and top/bottom edges. -/
theorem center_preserving_cell_size (imgs : List Img)
    (h : hasContent imgs = true) :
    cropCellSize imgs true =
      some ((⌈(centerRadii imgs).1 * 2⌉).toNat, (⌈(centerRadii imgs).2 * 2⌉).toNat) ∧
    (∀ img ∈ imgs, hRad img ≤ (centerRadii imgs).1 ∧
      vRad img ≤ (centerRadii imgs).2) ∧
    ((centerRadii imgs).1 = 0 ∨ ∃ img ∈ imgs, hRad img = (centerRadii imgs).1) ∧
    ((centerRadii imgs).2 = 0 ∨ ∃ img ∈ imgs, vRad img = (centerRadii imgs).2) ∧
    (∀ img ∈ imgs, ∀ l t r b, img.bbox = some (l, t, r, b) →
      hRad img = max |(img.width : ℚ) / 2 - (l : ℚ)| |(r : ℚ) - (img.width : ℚ) / 2| ∧
      vRad img = max |(img.height : ℚ) / 2 - (t : ℚ)| |(b : ℚ) - (img.height : ℚ) / 2|) := by
  obtain ⟨hmono, hub, hat1, hat2⟩ := radii_foldl imgs (0, 0) le_rfl le_rfl
  refine ⟨by simp [cropCellSize, h], hub, hat1, hat2, ?_⟩
  intro img _ l t r b hbbox
  exact ⟨by simp [hRad, hbbox], by simp [vRad, hbbox]⟩

/-- Witness for the amended C4: a single `4×4` image with bbox
`(1,1,4,4)` has both radii `2` and yields a `4×4` cell. -/
theorem center_preserving_cell_size_witness :
    hasContent [⟨4, 4, some (1, 1, 4, 4)⟩] = true ∧
    cropCellSize [⟨4, 4, some (1, 1, 4, 4)⟩] true = some (4, 4) := by
  refine ⟨by decide, ?_⟩
  rw [(center_preserving_cell_size [⟨4, 4, some (1, 1, 4, 4)⟩] (by decide)).1]
  have hrad : centerRadii [⟨4, 4, some (1, 1, 4, 4)⟩] = (2, 2) := by
    simp [centerRadii, radiiStep]
    norm_num [abs_of_nonneg]
  rw [hrad]
  norm_num
  decide

/-- C5: if the GlobalBBox policy has computed a union box over `imgs`
and one more image's own bbox lies inside that union, appending it
changes neither the union nor the resulting cell size. -/
theorem globalBBox_union_monotone (imgs : List Img) (img : Img)
    (L T R B l t r b : Nat)
    (hu : globalBBoxUnion imgs = some (L, T, R, B))
    (hb : img.bbox = some (l, t, r, b))
    (hl : L ≤ l) (ht : T ≤ t) (hr : r ≤ R) (hbb : b ≤ B) :
    globalBBoxUnion (imgs ++ [img]) = globalBBoxUnion imgs ∧
    cropCellSize (imgs ++ [img]) false = cropCellSize imgs false := by
  have key : globalBBoxUnion (imgs ++ [img]) = globalBBoxUnion imgs := by
    rw [globalBBoxUnion, List.foldl_append]
    rw [show imgs.foldl unionStep none = globalBBoxUnion imgs from rfl, hu]
    simp [unionStep, hb, min_eq_left hl, min_eq_left ht, max_eq_left hr, max_eq_left hbb]
  exact ⟨key, by simp [cropCellSize, key]⟩

/-- Witness for C5: union `(2,3,8,9)`, new bbox `(4,4,6,6)` inside it. -/
theorem globalBBox_union_monotone_witness :
    globalBBoxUnion ([⟨10, 10, some (2, 3, 8, 9)⟩] ++ [⟨10, 10, some (4, 4, 6, 6)⟩]) =
      globalBBoxUnion [⟨10, 10, some (2, 3, 8, 9)⟩] ∧
    cropCellSize ([⟨10, 10, some (2, 3, 8, 9)⟩] ++ [⟨10, 10, some (4, 4, 6, 6)⟩]) false =
      cropCellSize [⟨10, 10, some (2, 3, 8, 9)⟩] false :=
  globalBBox_union_monotone _ _ 2 3 8 9 4 4 6 6 (by decide) (by decide)
    (by decide) (by decide) (by decide) (by decide)

/-- C6: under either autocrop policy, when a crop-derived base cell size
`(w, h)` exists, every dimension is increased by `2*p` and then, if the
square flag is set, both dimensions become the maximum of the padded
pair — padding is applied before the square constraint. -/
theorem padding_then_square (imgs : List Img) (fc : Bool) (p : Nat) (sq : Bool)
    (w h : Nat) (hcrop : cropCellSize imgs fc = some (w, h)) :
    autocropCellSize imgs fc p sq =
      (if sq then (max (w + 2 * p) (h + 2 * p), max (w + 2 * p) (h + 2 * p))
       else (w + 2 * p, h + 2 * p)) := by
  rw [autocropCellSize, hcrop]
  by_cases hp : p > 0
  · simp only [if_pos hp]
    rw [Nat.mul_comm p 2]
  · have hp0 : p = 0 := by omega
    subst hp0
    simp

/-- Witness for C6: base `(3,2)`, padding `2`, square on, giving `(7,7)`. -/
theorem padding_then_square_witness :
    autocropCellSize [⟨5, 5, some (1, 1, 4, 3)⟩] false 2 true =
      (if true then (max (3 + 2 * 2) (2 + 2 * 2), max (3 + 2 * 2) (2 + 2 * 2))
       else (3 + 2 * 2, 2 + 2 * 2)) :=
  padding_then_square [⟨5, 5, some (1, 1, 4, 3)⟩] false 2 true 3 2 (by decide)

/-- C9: the final cell size always has both dimensions at least 1; when
either pre-guard dimension is 0, both are substituted with 1; and for
any grid the code can actually resolve from at least one image, the
canvas satisfies `cols*cellWidth ≥ cols`, `rows*cellHeight ≥ rows` and
has positive area. -/
theorem cell_size_fallback (imgs : List Img) (ac fc : Bool) (p : Nat) (sq : Bool) :
    1 ≤ (computeCellSize imgs ac fc p sq).1 ∧
    1 ≤ (computeCellSize imgs ac fc p sq).2 ∧
    ((preCellSize imgs ac fc p sq).1 = 0 ∨ (preCellSize imgs ac fc p sq).2 = 0 →
      computeCellSize imgs ac fc p sq = (1, 1)) ∧
    (∀ n g cols rows, 1 ≤ n → resolveGridDims n g = .ok (cols, rows) →
      cols ≤ cols * (computeCellSize imgs ac fc p sq).1 ∧
      rows ≤ rows * (computeCellSize imgs ac fc p sq).2 ∧
      0 < (cols * (computeCellSize imgs ac fc p sq).1) *
          (rows * (computeCellSize imgs ac fc p sq).2)) := by
  have hbase : 1 ≤ (computeCellSize imgs ac fc p sq).1 ∧
      1 ≤ (computeCellSize imgs ac fc p sq).2 := by
    rw [computeCellSize]
    split
    · exact ⟨le_refl 1, le_refl 1⟩
    · rename_i hne
      push_neg at hne
      exact ⟨by omega, by omega⟩
  refine ⟨hbase.1, hbase.2, ?_, ?_⟩
  · intro h0
    rw [computeCellSize, if_pos h0]
  · intro n g cols rows hn hok
    obtain ⟨hc, hr⟩ := resolveGridDims_pos n g cols rows hn hok
    refine ⟨Nat.le_mul_of_pos_right cols (by omega),
      Nat.le_mul_of_pos_right rows (by omega), ?_⟩
    have h1 : 0 < cols * (computeCellSize imgs ac fc p sq).1 :=
      Nat.mul_pos (by omega) (by omega)
    have h2 : 0 < rows * (computeCellSize imgs ac fc p sq).2 :=
      Nat.mul_pos (by omega) (by omega)
    exact Nat.mul_pos h1 h2

/-- Witness for C9: a single `0×0` image resolves to a `1×1` cell, and
for one image the `1×1` grid gives a positive-area canvas. -/
theorem cell_size_fallback_witness :
    computeCellSize [⟨0, 0, none⟩] false false 0 false = (1, 1) ∧
    (1 ≤ 1 * (computeCellSize [⟨0, 0, none⟩] false false 0 false).1 ∧
     1 ≤ 1 * (computeCellSize [⟨0, 0, none⟩] false false 0 false).2 ∧
     0 < 1 * (computeCellSize [⟨0, 0, none⟩] false false 0 false).1 *
         (1 * (computeCellSize [⟨0, 0, none⟩] false false 0 false).2)) :=
  ⟨(cell_size_fallback [⟨0, 0, none⟩] false false 0 false).2.2.1 (.inl (by decide)),
   (cell_size_fallback [⟨0, 0, none⟩] false false 0 false).2.2.2 1 none 1 1
     (by decide) rfl⟩

end Filmstrip
